import Mathlib

set_option maxRecDepth 8000

namespace InvoiceExtractor

/-! Shallow embedding of `invoice_extractor.py`.

Oracle responses are modelled as lists of characters.  The Python string
primitives the source relies on (`str.strip`, `str.find`, `str.rfind`,
slicing, `str.replace`, and the `re.sub` call for trailing commas) are given
explicit definitions, and `json.loads` is modelled after CPython's
pure-Python `json` decoder: values keep their number lexemes verbatim, and
parse errors are formatted exactly like `str(JSONDecodeError)`, that is
`msg: line L column C (char P)`. -/

/-- The single-quote character (written via its code point). -/
def squote : Char := Char.ofNat 39

/-- The backtick character (written via its code point). -/
def btick : Char := Char.ofNat 96

/-- ASCII characters stripped by Python `str.strip()`. -/
def isStripWs (c : Char) : Bool :=
  c = ' ' || c = '\t' || c = '\n' || c = '\r' || c = '\x0b' || c = '\x0c'

/-- ASCII characters matched by `\s` in Python regular expressions. -/
def isReWs (c : Char) : Bool :=
  c = ' ' || c = '\t' || c = '\n' || c = '\r' || c = '\x0b' || c = '\x0c'

/-- Whitespace skipped between tokens by the JSON decoder. -/
def isJsonWs (c : Char) : Bool :=
  c = ' ' || c = '\t' || c = '\n' || c = '\r'

/-- Python `str.lstrip()`. -/
def lstripPy (l : List Char) : List Char := l.dropWhile isStripWs

/-- Python `str.rstrip()`. -/
def rstripPy (l : List Char) : List Char := (l.reverse.dropWhile isStripWs).reverse

/-- Python `str.strip()`. -/
def pyStrip (l : List Char) : List Char := rstripPy (lstripPy l)

/-- First index of `c` at or after accumulator position `i`. -/
def findCharAux (c : Char) : List Char → Nat → Option Nat
  | [], _ => none
  | a :: t, i => if a = c then some i else findCharAux c t (i + 1)

/-- Python `str.find(c)` for a single character: index of first occurrence or `-1`. -/
def pyFindChar (l : List Char) (c : Char) : Int :=
  match findCharAux c l 0 with
  | some i => (i : Int)
  | none => -1

/-- Python `str.rfind(c)` for a single character: index of last occurrence or `-1`. -/
def pyRFindChar (l : List Char) (c : Char) : Int :=
  match findCharAux c l.reverse 0 with
  | some i => ((l.length - 1 - i : Nat) : Int)
  | none => -1

/-- First index (counting from accumulator `i`) where `needle` occurs. -/
def findSubAux (needle : List Char) : List Char → Nat → Option Nat
  | [], i => if needle = [] then some i else none
  | a :: t, i => if needle.isPrefixOf (a :: t) then some i else findSubAux needle t (i + 1)

/-- Python `str.find(sub, start)`: first occurrence index at or after `start`, or `-1`. -/
def pyFindSubFrom (hay needle : List Char) (start : Nat) : Int :=
  match findSubAux needle (hay.drop start) start with
  | some i => (i : Int)
  | none => -1

/-- Python `sub in s` substring containment. -/
def containsSub (hay needle : List Char) : Bool :=
  pyFindSubFrom hay needle 0 ≥ 0

/-- Normalise one Python slice bound (step 1) against length `n`. -/
def sliceIdx (n : Nat) (i : Int) : Nat :=
  if i < 0 then ((n : Int) + i).toNat else min i.toNat n

/-- Python slicing `s[a:b]` for character lists. -/
def pySlice (l : List Char) (a b : Int) : List Char :=
  (l.take (sliceIdx l.length b)).drop (sliceIdx l.length a)

/-- Python `str.replace(old, new)` for single characters. -/
def replaceChar (l : List Char) (old new : Char) : List Char :=
  l.map (fun c => if c = old then new else c)

/-- Python `s[:n]` on a string. -/
def takeStr (n : Nat) (s : String) : String := ⟨s.data.take n⟩

/-- JSON values as produced by the modelled `json.loads`.  Numbers keep the
matched source lexeme (the claims never compare distinct lexemes), strings
hold their decoded characters. -/
inductive Json where
  | null : Json
  | bool (b : Bool) : Json
  | num (lexeme : String) : Json
  | str (s : String) : Json
  | arr (items : List Json) : Json
  | obj (members : List (String × Json)) : Json
deriving Repr

/-- The error record `extract_data` builds, `{"error": m}`. -/
def errObj (m : String) : Json := Json.obj [("error", Json.str m)]

/-- The single-quote character as a one-character string. -/
def sq : String := ⟨[squote]⟩

/-- Number of newline characters in `l`. -/
def countNl (l : List Char) : Nat := (l.filter (fun c => c = '\n')).length

/-- Format a decoder error the way `str(json.JSONDecodeError)` does:
`msg: line L column C (char P)`. -/
def fmtErr (doc : List Char) (msg : String) (pos : Nat) : String :=
  let pre := doc.take pos
  let lineno := countNl pre + 1
  let colno :=
    match findCharAux '\n' pre.reverse 0 with
    | some i => i + 1
    | none => pos + 1
  msg ++ ": line " ++ toString lineno ++ " column " ++ toString colno ++
    " (char " ++ toString pos ++ ")"

/-- `json.decoder.BACKSLASH`: the simple escape table. -/
def escMap (c : Char) : Option Char :=
  if c = '"' then some '"'
  else if c = '\\' then some '\\'
  else if c = '/' then some '/'
  else if c = 'b' then some (Char.ofNat 8)
  else if c = 'f' then some (Char.ofNat 12)
  else if c = 'n' then some '\n'
  else if c = 'r' then some '\r'
  else if c = 't' then some '\t'
  else none

def isDigitCh (c : Char) : Bool := '0' ≤ c && c ≤ '9'

def isHexCh (c : Char) : Bool :=
  isDigitCh c || ('a' ≤ c && c ≤ 'f') || ('A' ≤ c && c ≤ 'F')

def hexVal (c : Char) : Nat :=
  if isDigitCh c then c.toNat - 48
  else if 'a' ≤ c && c ≤ 'f' then c.toNat - 87
  else c.toNat - 55

def hex4Val (h : List Char) : Nat := h.foldl (fun a c => 16 * a + hexVal c) 0

/-- Decoder error payload: message and absolute character position. -/
abbrev PErr := String × Nat

def msgExpValue : String := "Expecting value"

def msgExpPropName : String := "Expecting property name enclosed in double quotes"

def msgExpCommaDelim : String := "Expecting " ++ sq ++ "," ++ sq ++ " delimiter"

def msgExpColonDelim : String := "Expecting " ++ sq ++ ":" ++ sq ++ " delimiter"

def msgUntermString : String := "Unterminated string starting at"

/-- Model of the scanner used by `json.loads` (CPython 3.11 `_json`
`scanstring_unicode`), scanning from just after the opening quote
(position `p`; the quote itself sits at `b0`).  Message texts and error
positions were checked against that implementation.  Lone surrogates from
`\uXXXX` escapes go through `Char.ofNat`, which maps the invalid scalar
values to NUL (CPython keeps the surrogate code unit; no claim examines
that corner). -/
def scanStringAux : Nat → List Char → Nat → Nat → List Char →
    Except PErr (String × List Char × Nat)
  | 0, _, _, b0, _ => .error (msgUntermString, b0)
  | _ + 1, [], _, b0, _ => .error (msgUntermString, b0)
  | fuel + 1, c :: t, p, b0, acc =>
    if c = '"' then .ok (⟨acc.reverse⟩, t, p + 1)
    else if c = '\\' then
      match t with
      | [] => .error (msgUntermString, b0)
      | e :: t2 =>
        if e = 'u' then
          let h := t2.take 4
          if h.length = 4 && h.all isHexCh then
            let uni := hex4Val h
            let t3 := t2.drop 4
            if 0xd800 ≤ uni && uni ≤ 0xdbff then
              match t3 with
              | u1 :: u2 :: t4 =>
                if u1 = '\\' && u2 = 'u' then
                  let h2 := t4.take 4
                  if h2.length = 4 && h2.all isHexCh then
                    let uni2 := hex4Val h2
                    if 0xdc00 ≤ uni2 && uni2 ≤ 0xdfff then
                      scanStringAux fuel (t4.drop 4) (p + 12) b0
                        (Char.ofNat (0x10000 + ((uni - 0xd800) * 1024 + (uni2 - 0xdc00))) :: acc)
                    else
                      scanStringAux fuel t3 (p + 6) b0 (Char.ofNat uni :: acc)
                  else .error ("Invalid \\uXXXX escape", p + 7)
                else scanStringAux fuel t3 (p + 6) b0 (Char.ofNat uni :: acc)
              | _ => scanStringAux fuel t3 (p + 6) b0 (Char.ofNat uni :: acc)
            else scanStringAux fuel t3 (p + 6) b0 (Char.ofNat uni :: acc)
          else .error ("Invalid \\uXXXX escape", p + 1)
        else
          match escMap e with
          | some ch => scanStringAux fuel t2 (p + 2) b0 (ch :: acc)
          | none => .error ("Invalid \\escape", p)
    else if c.toNat < 32 then
      .error ("Invalid control character at", p)
    else scanStringAux fuel t (p + 1) b0 (c :: acc)

/-- Consume a maximal run of decimal digits. -/
def takeDigits : List Char → List Char × List Char
  | [] => ([], [])
  | c :: t =>
    if isDigitCh c then
      let (d, r) := takeDigits t
      (c :: d, r)
    else ([], c :: t)

/-- The optional `(\.\d+)?([eE][-+]?\d+)?` tail of the decoder's `NUMBER_RE`. -/
def numFracExp (s : List Char) : List Char × List Char :=
  let (frac, s2) :=
    match s with
    | '.' :: t =>
      let (d, r) := takeDigits t
      if d = [] then (([] : List Char), s) else ('.' :: d, r)
    | _ => ([], s)
  let (ex, s3) :=
    match s2 with
    | c :: t =>
      if c = 'e' || c = 'E' then
        match t with
        | c2 :: t2 =>
          if c2 = '+' || c2 = '-' then
            let (d, r) := takeDigits t2
            if d = [] then (([] : List Char), s2) else (c :: c2 :: d, r)
          else
            let (d, r) := takeDigits t
            if d = [] then (([] : List Char), s2) else (c :: d, r)
        | [] => ([], s2)
      else ([], s2)
    | [] => ([], s2)
  (frac ++ ex, s3)

/-- Match of the decoder's `NUMBER_RE` at the current position:
`(-?(?:0|[1-9]\d*))(\.\d+)?([eE][-+]?\d+)?`; returns lexeme and rest. -/
def matchNumber (s : List Char) : Option (List Char × List Char) :=
  let (sign, s1) :=
    match s with
    | c :: t => if c = '-' then ((['-'] : List Char), t) else ([], s)
    | [] => ([], [])
  match s1 with
  | c :: t =>
    if c = '0' then
      let (fe, r) := numFracExp t
      some (sign ++ '0' :: fe, r)
    else if isDigitCh c then
      let (d, r0) := takeDigits t
      let (fe, r) := numFracExp r0
      some (sign ++ c :: (d ++ fe), r)
    else none
  | [] => none

/-- Skip decoder whitespace, tracking the absolute position. -/
def skipJsonWs : List Char → Nat → List Char × Nat
  | [], p => ([], p)
  | c :: t, p => if isJsonWs c then skipJsonWs t (p + 1) else (c :: t, p)

/-- What the scanner is currently scanning: one value (`scan_once`), an
object body just after `{`, the object member loop just after a key's
opening quote, an array body just after `[`, or the array element loop. -/
inductive ScanMode where
  | value : ScanMode
  | object : ScanMode
  | members (pairs : List (String × Json)) : ScanMode
  | array : ScanMode
  | elems (vals : List Json) : ScanMode

/-- Model of the decoder's scanner (`scan_once` together with the
`JSONObject`/`JSONArray` loops), fuelled so that the recursion is
structural.  The fuel handed out by `jsonLoads` always suffices: every
recursive call follows the consumption of at least one input character.
The member loop returns `Json.obj` and the element loop `Json.arr`, so
every mode produces a `Json`. -/
def scanRun : Nat → ScanMode → List Char → Nat → Except PErr (Json × List Char × Nat)
  | 0, _, _, p => .error (msgExpValue, p)
  | fuel + 1, .value, s, p =>
    (match s with
    | [] => .error (msgExpValue, p)
    | c :: t =>
      if c = '"' then
        match scanStringAux (t.length + 1) t (p + 1) p [] with
        | .error e => .error e
        | .ok (st, rest, p2) => .ok (Json.str st, rest, p2)
      else if c = '{' then scanRun fuel .object t (p + 1)
      else if c = '[' then scanRun fuel .array t (p + 1)
      else if c = 'n' && t.take 3 = ['u', 'l', 'l'] then .ok (Json.null, t.drop 3, p + 4)
      else if c = 't' && t.take 3 = ['r', 'u', 'e'] then .ok (Json.bool true, t.drop 3, p + 4)
      else if c = 'f' && t.take 4 = ['a', 'l', 's', 'e'] then .ok (Json.bool false, t.drop 4, p + 5)
      else
        match matchNumber (c :: t) with
        | some (lex, rest) => .ok (Json.num ⟨lex⟩, rest, p + lex.length)
        | none =>
          if c = 'N' && t.take 2 = ['a', 'N'] then .ok (Json.num "NaN", t.drop 2, p + 3)
          else if c = 'I' && t.take 7 = ['n', 'f', 'i', 'n', 'i', 't', 'y'] then
            .ok (Json.num "Infinity", t.drop 7, p + 8)
          else if c = '-' && t.take 8 = ['I', 'n', 'f', 'i', 'n', 'i', 't', 'y'] then
            .ok (Json.num "-Infinity", t.drop 8, p + 9)
          else .error (msgExpValue, p))
  | fuel + 1, .object, s, p =>
    (let sp := skipJsonWs s p
    match sp.1 with
    | '}' :: t => .ok (Json.obj [], t, sp.2 + 1)
    | '"' :: t => scanRun fuel (.members []) t (sp.2 + 1)
    | _ => .error (msgExpPropName, sp.2))
  | fuel + 1, .members pairs, s, p =>
    (match scanStringAux (s.length + 1) s p (p - 1) [] with
    | .error e => .error e
    | .ok (key, s2, p2) =>
      let sp3 := skipJsonWs s2 p2
      match sp3.1 with
      | ':' :: t =>
        let sp4 := skipJsonWs t (sp3.2 + 1)
        match scanRun fuel .value sp4.1 sp4.2 with
        | .error e => .error e
        | .ok (v, s5, p5) =>
          let sp6 := skipJsonWs s5 p5
          match sp6.1 with
          | '}' :: t2 => .ok (Json.obj (pairs ++ [(key, v)]), t2, sp6.2 + 1)
          | ',' :: t2 =>
            let sp7 := skipJsonWs t2 (sp6.2 + 1)
            match sp7.1 with
            | '"' :: t3 => scanRun fuel (.members (pairs ++ [(key, v)])) t3 (sp7.2 + 1)
            | _ => .error (msgExpPropName, sp7.2)
          | _ => .error (msgExpCommaDelim, sp6.2)
      | _ => .error (msgExpColonDelim, sp3.2))
  | fuel + 1, .array, s, p =>
    (let sp := skipJsonWs s p
    match sp.1 with
    | ']' :: t => .ok (Json.arr [], t, sp.2 + 1)
    | _ => scanRun fuel (.elems []) sp.1 sp.2)
  | fuel + 1, .elems vals, s, p =>
    (match scanRun fuel .value s p with
    | .error e => .error e
    | .ok (v, s2, p2) =>
      let sp3 := skipJsonWs s2 p2
      match sp3.1 with
      | ']' :: t => .ok (Json.arr (vals ++ [v]), t, sp3.2 + 1)
      | ',' :: t =>
        let sp4 := skipJsonWs t (sp3.2 + 1)
        scanRun fuel (.elems (vals ++ [v])) sp4.1 sp4.2
      | _ => .error (msgExpCommaDelim, sp3.2))

/-- The decoder's `scan_once`. -/
def scanValue (fuel : Nat) (s : List Char) (p : Nat) : Except PErr (Json × List Char × Nat) :=
  scanRun fuel .value s p

/-- Model of `json.loads` (through `JSONDecoder.decode`): parse one value and
require only whitespace to follow; errors are rendered like `str(e)`. -/
def jsonLoads (doc : List Char) : Except String Json :=
  let sp := skipJsonWs doc 0
  match scanValue (4 * doc.length + 16) sp.1 sp.2 with
  | .error e => .error (fmtErr doc e.1 e.2)
  | .ok (v, rest, p2) =>
    let spEnd := skipJsonWs rest p2
    match spEnd.1 with
    | [] => .ok v
    | _ => .error (fmtErr doc "Extra data" spEnd.2)

/-! The response-normalisation section of `InvoiceExtractor.extract_data`
(lines 88-122 of `invoice_extractor.py`). -/

/-- The characters of the language-tagged fence marker. -/
def fenceJson : List Char := [btick, btick, btick, 'j', 's', 'o', 'n']

/-- The characters of the bare fence marker. -/
def fence3 : List Char := [btick, btick, btick]

/-- Lines 91-99: strip markdown fences.  `text.find("```", start)` yields
`-1` when no closing fence exists, and that `-1` flows into the slice. -/
def stripFence (text : List Char) : List Char :=
  match findSubAux fenceJson text 0 with
  | some i =>
    pyStrip (pySlice text ((i : Int) + 7) (pyFindSubFrom text fence3 (i + 7)))
  | none =>
    match findSubAux fence3 text 0 with
    | some i =>
      pyStrip (pySlice text ((i : Int) + 3) (pyFindSubFrom text fence3 (i + 3)))
    | none => text

/-- Matches the regex `\s*[}\]]` anchored at the start of `l` (the part of
`re.sub(r',(\s*[}\]])', r'\1', ...)` that follows the comma). -/
def wsThenBracket : List Char → Bool
  | [] => false
  | c :: t => (c = '}' || c = ']') || (isReWs c && wsThenBracket t)

/-- `re.sub(r',(\s*[}\]])', r'\1', text)`: drop every comma followed by
whitespace and a closing bracket.  The replacement keeps the whitespace
and bracket; since they contain no comma, continuing the scan inside them
agrees with `re.sub` continuing after the match. -/
def stripTrailingCommas : List Char → List Char
  | [] => []
  | c :: t =>
    if c = ',' && wsThenBracket t then stripTrailingCommas t
    else c :: stripTrailingCommas t

/-- Lines 113-117: the recovery cleanup — every single quote becomes a double
quote, every newline a space, then trailing commas are dropped. -/
def cleanup (t : List Char) : List Char :=
  stripTrailingCommas (replaceChar (replaceChar t squote '"') '\n' ' ')

/-- Lines 108-120: strict parse, then one recovery parse, else the wrapped
decoder message. -/
def parseWithRecovery (json_text : List Char) : Except String Json :=
  match jsonLoads json_text with
  | .ok v => .ok v
  | .error _ =>
    match jsonLoads (cleanup json_text) with
    | .ok v => .ok v
    | .error e => .error ("JSON parsing failed: " ++ e)

/-- Lines 101-122: brace location and parsing, applied to the (stripped,
fence-handled) text. -/
def normalizeCore (text : List Char) : Json :=
  let js := pyFindChar text '{'
  let je := pyRFindChar text '}' + 1
  if js ≥ 0 ∧ je > js then
    match parseWithRecovery (pySlice text js je) with
    | .ok v => v
    | .error m => errObj m
  else errObj "No valid JSON found in response"

/-- Lines 89-122: the whole normalisation of one raw oracle response. -/
def normalize (raw : List Char) : Json :=
  normalizeCore (stripFence (pyStrip raw))

/-- `extract_data` (lines 33-125): the oracle interaction is abstracted as
its outcome — either the text of the model reply or the message of the
exception raised while rasterising/calling; the surrounding
`try/except Exception` turns the latter into the error record. -/
def extract_data (oracle : Except String (List Char)) : Json :=
  match oracle with
  | .error e => errObj ("Extraction error: " ++ e)
  | .ok raw => normalize raw

/-! `process_folder` (lines 197-249) and `create_csv` (lines 127-195). -/

/-- The per-document result dict built by `process_folder`. -/
structure PyDictResult where
  filename : String
  status : String
  data : Option Json
  error : Option Json
deriving Repr

/-- Python `key in d` for a parsed JSON value used as a dict. -/
def hasKey (j : Json) (k : String) : Bool :=
  match j with
  | Json.obj kvs => kvs.any (fun kv => kv.1 = k)
  | _ => false

/-- Python `d.get(key)` / `d[key]`; duplicate keys collapse to the last
occurrence, as `json.loads` building a `dict` does. -/
def dictGet (j : Json) (k : String) : Option Json :=
  match j with
  | Json.obj kvs => ((kvs.filter (fun kv => kv.1 = k)).getLast?).map (fun kv => kv.2)
  | _ => none

/-- The decoded values Python can slice (`v[:100]` at line 228, `v[:200]`
at line 150): JSON decoding produces `str` and `list` for these; slicing
any other decoded value (`None`, a number, a boolean, a `dict`) raises
`TypeError`. -/
def sliceable : Json → Bool
  | Json.str _ => true
  | Json.arr _ => true
  | _ => false

/-- Lines 219-249: classify one document from the record `extract_data`
returned (`if "error" in data`).  In the error branch the status print of
line 228 evaluates `data['error'][:100]` before the result is appended:
for a non-sliceable error value this raises a `TypeError` that nothing
catches, modelled as `Except.error`. -/
def processResult (name : String) (oracle : Except String (List Char)) :
    Except String PyDictResult :=
  let data := extract_data oracle
  if hasKey data "error" then
    match dictGet data "error" with
    | some v =>
      if sliceable v then .ok ⟨name, "error", none, some v⟩
      else .error "TypeError"
    | none => .error "KeyError"
  else .ok ⟨name, "success", some data, none⟩

/-- Lines 215-249: the per-file loop of `process_folder`, one result dict
per PDF file; an exception raised while reporting a document propagates
(there is no `try` in `process_folder` or `main`) and aborts the batch. -/
def process_folder (files : List (String × Except String (List Char))) :
    Except String (List PyDictResult) :=
  match files with
  | [] => .ok []
  | f :: rest =>
    match processResult f.1 f.2 with
    | .error e => .error e
    | .ok r =>
      match process_folder rest with
      | .error e => .error e
      | .ok rs => .ok (r :: rs)

/-- One file's record either lacks an `error` key or carries a sliceable
error value: the condition under which line 228 cannot raise for it. -/
def errorValueOk (oracle : Except String (List Char)) : Bool :=
  match dictGet (extract_data oracle) "error" with
  | some v => sliceable v
  | none => true

/-- Line 130-134: the `fieldnames` list, in the source's order. -/
def fieldnames : List String :=
  ["filename", "invoiceNumber", "invoiceDate", "vendorName", "customerName",
   "totalAmount", "subtotal", "tax", "dueDate", "lineItemsCount",
   "lineItemsSummary", "status", "error"]

/-- One CSV row keyed by the thirteen field names. -/
structure CsvRow where
  filename : Option Json
  invoiceNumber : Option Json
  invoiceDate : Option Json
  vendorName : Option Json
  customerName : Option Json
  totalAmount : Option Json
  subtotal : Option Json
  tax : Option Json
  dueDate : Option Json
  lineItemsCount : Option Json
  lineItemsSummary : Option Json
  status : Option Json
  error : Option Json
deriving Repr

/-- Lines 142-193: build the row dict for one result.  The error cell is
`result.get('error', 'Unknown error')[:200]`: strings and lists slice
(keeping their first 200 items), any other value raises `TypeError`; a
success result lacking a dict payload raises too.  Raises are modelled as
`Except.error`. -/
def rowFor (r : PyDictResult) : Except String CsvRow :=
  if r.status = "error" then
    match r.error.getD (Json.str "Unknown error") with
    | Json.str e =>
      .ok ⟨some (Json.str r.filename), none, none, none, none, none, none, none,
        none, none, none, some (Json.str "error"), some (Json.str (takeStr 200 e))⟩
    | Json.arr xs =>
      .ok ⟨some (Json.str r.filename), none, none, none, none, none, none, none,
        none, none, none, some (Json.str "error"), some (Json.arr (xs.take 200))⟩
    | _ => .error "TypeError"
  else
    match r.data with
    | none => .error "KeyError"
    | some d =>
      match d with
      | Json.obj _ =>
        .ok ⟨some (Json.str r.filename),
          dictGet d "invoiceNumber", dictGet d "invoiceDate", dictGet d "vendorName",
          dictGet d "customerName", dictGet d "totalAmount", dictGet d "subtotal",
          dictGet d "tax", dictGet d "dueDate", dictGet d "lineItemsCount",
          dictGet d "lineItemsSummary", some (Json.str "success"), none⟩
      | _ => .error "AttributeError"

/-- `csv.DictWriter.writerow`: the cells of a row in `fieldnames` order. -/
def rowCells (r : CsvRow) : List (Option Json) :=
  [r.filename, r.invoiceNumber, r.invoiceDate, r.vendorName, r.customerName,
   r.totalAmount, r.subtotal, r.tax, r.dueDate, r.lineItemsCount,
   r.lineItemsSummary, r.status, r.error]

/-- `writer.writeheader()`: the header cells. -/
def headerCells : List (Option Json) := fieldnames.map (fun f => some (Json.str f))

/-- The row-writing loop of `create_csv`; an exception aborts the run. -/
def dataRows : List PyDictResult → Except String (List (List (Option Json)))
  | [] => .ok []
  | r :: rest =>
    match rowFor r with
    | .error e => .error e
    | .ok row =>
      match dataRows rest with
      | .error e => .error e
      | .ok rows => .ok (rowCells row :: rows)

/-- `create_csv` (lines 127-195): header plus one data row per result. -/
def create_csv (results : List PyDictResult) : Except String (List (List (Option Json))) :=
  match dataRows results with
  | .error e => .error e
  | .ok rows => .ok (headerCells :: rows)

/-! The invoice assembly state machine of spec section 4.2.  The repository
source contains only the single-call-per-document pipeline; the spec's
multi-page design has no counterpart under `src/`, so the machine is
modelled from the spec text. -/

/-- Modelled from the spec: the per-page classification record of section 3
(the multi-page state machine consuming it is not present in the repository
source). -/
structure PageClassification where
  isStart : Bool
  isContinuation : Bool
  isEnd : Bool
  isBlank : Bool
  fields : List (String × Json)
  lineItems : List Json
deriving Repr

/-- Modelled from the spec: the mutable working record of one invoice. -/
structure InvoiceAccumulator where
  fields : List (String × Json)
  lineItems : List Json
deriving Repr

/-- Machine state: the open accumulator (if any) and the closed invoices. -/
abbrev MachineState := Option InvoiceAccumulator × List InvoiceAccumulator

/-- Set (or append) one scalar field. -/
def setField (fs : List (String × Json)) (k : String) (v : Json) : List (String × Json) :=
  if fs.any (fun kv => kv.1 = k) then
    fs.map (fun kv => if kv.1 = k then (k, v) else kv)
  else fs ++ [(k, v)]

/-- Test for the JSON null value. -/
def Json.isNull : Json → Bool
  | Json.null => true
  | _ => false

/-- Modelled from the spec: merge non-null incoming fields, a present
non-null value always overwrites, a null value never erases. -/
def mergeNonNull (acc : List (String × Json)) : List (String × Json) → List (String × Json)
  | [] => acc
  | (k, v) :: rest =>
    if v.isNull then mergeNonNull acc rest
    else mergeNonNull (setField acc k v) rest

/-- Modelled from the spec: one transition of the assembly state machine of
section 4.2 — `Error` pages are skipped; `isStart` closes a non-empty
accumulator and seeds a fresh one; otherwise `isContinuation` appends line
items to an open accumulator; `isEnd` fires after start/continuation
handling, merging non-null fields and closing the accumulator. -/
def stepPage (st : MachineState) (res : Except String PageClassification) : MachineState :=
  match res with
  | .error _ => st
  | .ok pg =>
    let st1 :=
      if pg.isStart then
        match st.1 with
        | some a => (some ⟨pg.fields, pg.lineItems⟩, st.2 ++ [a])
        | none => (some ⟨pg.fields, pg.lineItems⟩, st.2)
      else if pg.isContinuation then
        match st.1 with
        | some a => (some ⟨a.fields, a.lineItems ++ pg.lineItems⟩, st.2)
        | none => st
      else st
    if pg.isEnd then
      match st1.1 with
      | some a => (none, st1.2 ++ [⟨mergeNonNull a.fields pg.fields, a.lineItems⟩])
      | none => st1
    else st1

/-- Modelled from the spec: run the machine over the ordered page results
and flush a still-open accumulator after the last page. -/
def runMachine (pages : List (Except String PageClassification)) : List InvoiceAccumulator :=
  let fin := pages.foldl stepPage (none, [])
  match fin.1 with
  | some a => fin.2 ++ [a]
  | none => fin.2

/-- Number of non-error pages with `isStart` set. -/
def countStarts (pages : List (Except String PageClassification)) : Nat :=
  (pages.filter (fun r =>
    match r with
    | .ok pg => pg.isStart
    | .error _ => false)).length

/-- Projection of `stepPage` onto accumulator presence, counting the
`isStart` transitions that close a prior non-empty accumulator. -/
def flagStep (st : Bool × Nat) (res : Except String PageClassification) : Bool × Nat :=
  match res with
  | .error _ => st
  | .ok pg =>
    let st1 :=
      if pg.isStart then (true, st.2 + (if st.1 then 1 else 0))
      else st
    if pg.isEnd && st1.1 then (false, st1.2) else st1

/-- Number of `isStart` transitions that close a prior non-empty accumulator. -/
def startCloses (pages : List (Except String PageClassification)) : Nat :=
  (pages.foldl flagStep (false, 0)).2

/-! Definitions following the spec's words, for comparison against the
source-derived ones. -/

/-- The column order claimed by spec section 6 (`status` second). -/
def spec_fieldnames : List String :=
  ["filename", "status", "invoiceNumber", "invoiceDate", "vendorName",
   "customerName", "totalAmount", "subtotal", "tax", "dueDate",
   "lineItemsCount", "lineItemsSummary", "error"]

/-- The normaliser behaviour claim C5 describes: no `{` means the
no-JSON error, and any text containing a `{` has the substring between the
first `{` and the last `}` handed to the parser. -/
def specNormalizeCore (text : List Char) : Json :=
  if pyFindChar text '{' < 0 then errObj "No valid JSON found in response"
  else
    match parseWithRecovery (pySlice text (pyFindChar text '{') (pyRFindChar text '}' + 1)) with
    | .ok v => v
    | .error m => errObj m

/-- The fallback behaviour claim C2 describes: when the closing fence of a
fenced response cannot be located, continue with the text unchanged (apart
from the outer `strip()` of line 89). -/
def specNormalizeNoClosingFence (raw : List Char) : Json :=
  normalizeCore (pyStrip raw)

/-! Theorems. -/

/-- C2: on a response whose opening fence has no closing fence, the code does
not proceed with the unstripped text: `text.find` returns `-1`, the slice
`text[start:-1]` drops everything before the fence contents and the final
character, and the valid object `{"a":1}` is reported as no JSON at all.
Proceeding with the unstripped text (the spec's stated fallback) would have
recovered the object. -/
theorem c2_missing_closing_fence_truncates :
    normalize "```json\n\x7b\"a\":1\x7d".data = errObj "No valid JSON found in response" ∧
    specNormalizeNoClosingFence "```json\n\x7b\"a\":1\x7d".data =
      Json.obj [("a", Json.num "1")] :=
  ⟨rfl, rfl⟩

/-- C1 counterexample: the text `{"a":1} }` embeds the valid JSON object
`{"a":1}` in surrounding text, but the normaliser reports an Extra-data
failure instead of recovering the object, because the trailing ` }` is
pulled into the parsed substring by the last-`}` bound. -/
theorem c1_counterexample :
    jsonLoads "\x7b\"a\":1\x7d".data = .ok (Json.obj [("a", Json.num "1")]) ∧
    normalize "\x7b\"a\":1\x7d \x7d".data =
      errObj "JSON parsing failed: Extra data: line 1 column 9 (char 8)" ∧
    normalize "\x7b\"a\":1\x7d \x7d".data ≠ Json.obj [("a", Json.num "1")] := by
  refine ⟨rfl, rfl, ?_⟩
  rw [show normalize "\x7b\"a\":1\x7d \x7d".data =
    errObj "JSON parsing failed: Extra data: line 1 column 9 (char 8)" from rfl]
  simp [errObj]

/-- C5 counterexample: `{a` contains a `{`, yet the normaliser does not
attempt any parse of a brace-bounded substring — it returns the no-JSON
error, while the behaviour the claim describes would report a parse
failure on the empty slice. -/
theorem c5_counterexample :
    normalizeCore "\x7ba".data = errObj "No valid JSON found in response" ∧
    specNormalizeCore "\x7ba".data =
      errObj ("JSON parsing failed: " ++ msgExpValue ++ ": line 1 column 1 (char 0)") ∧
    normalizeCore "\x7ba".data ≠ specNormalizeCore "\x7ba".data := by
  refine ⟨rfl, rfl, ?_⟩
  rw [show normalizeCore "\x7ba".data = errObj "No valid JSON found in response" from rfl,
    show specNormalizeCore "\x7ba".data =
      errObj ("JSON parsing failed: " ++ msgExpValue ++ ": line 1 column 1 (char 0)") from rfl]
  simp [errObj]
  decide

/-- C4 counterexample: on `{"a": "it's",}` (strict parse fails only because
of the trailing comma) the code's recovery rewrites the apostrophe inside
the double-quoted string as well and fails, while a pass that converts only
single-quoted string delimiters — here there are none, so only the
trailing-comma strip applies — parses the object successfully. -/
theorem c4_counterexample :
    parseWithRecovery ("\x7b\"a\": \"it" ++ sq ++ "s\",\x7d").data =
      .error ("JSON parsing failed: " ++ msgExpCommaDelim ++ ": line 1 column 11 (char 10)") ∧
    jsonLoads (stripTrailingCommas ("\x7b\"a\": \"it" ++ sq ++ "s\",\x7d").data) =
      .ok (Json.obj [("a", Json.str ("it" ++ sq ++ "s"))]) :=
  ⟨rfl, rfl⟩

/-- C3 counterexample: when both parses fail, the error carries only the
decoder's message (position information); it contains no snippet of the
offending substring — here not even the six-character substring itself. -/
theorem c3_counterexample :
    normalize "\x7bx: 1\x7d".data =
      errObj ("JSON parsing failed: " ++ msgExpPropName ++ ": line 1 column 2 (char 1)") ∧
    containsSub ("JSON parsing failed: " ++ msgExpPropName ++ ": line 1 column 2 (char 1)").data
      (takeStr 200 "\x7bx: 1\x7d").data = false :=
  ⟨rfl, rfl⟩

/-- C8 counterexample: the source's `fieldnames` order (with `status` as the
twelfth column) differs from the order the claim states (`status` second). -/
theorem c8_counterexample : fieldnames ≠ spec_fieldnames := by decide

/-- One machine transition, related to its presence/close-count projection:
the projection flag tracks accumulator presence, the close counter grows at
most as fast as the completed list, and the completed list plus the open
accumulator grow only on an `isStart` page. -/
theorem stepPage_props (cur : Option InvoiceAccumulator) (done : List InvoiceAccumulator)
    (b : Bool) (k : Nat) (r : Except String PageClassification) (hb : b = cur.isSome) :
    (flagStep (b, k) r).1 = (stepPage (cur, done) r).1.isSome ∧
    (flagStep (b, k) r).2 + done.length ≤ k + (stepPage (cur, done) r).2.length ∧
    (stepPage (cur, done) r).2.length +
      (if (stepPage (cur, done) r).1.isSome then 1 else 0) ≤
      done.length + (if cur.isSome then 1 else 0) +
      (match r with
       | .ok pg => if pg.isStart then 1 else 0
       | .error _ => 0) := by
  subst hb
  cases r with
  | error e => simp [stepPage, flagStep]
  | ok pg =>
    by_cases hS : pg.isStart = true <;> by_cases hC : pg.isContinuation = true <;>
      by_cases hE : pg.isEnd = true <;> cases cur <;>
      simp [stepPage, flagStep, hS, hC, hE, List.length_append] <;> omega

/-- Number of non-error `isStart` pages contributed by the head of a list. -/
theorem countStarts_cons (r : Except String PageClassification)
    (rest : List (Except String PageClassification)) :
    countStarts (r :: rest) =
      (match r with
       | .ok pg => if pg.isStart then 1 else 0
       | .error _ => 0) + countStarts rest := by
  cases r with
  | error e => simp [countStarts, List.filter_cons]
  | ok pg =>
    by_cases h : pg.isStart = true
    · simp [countStarts, List.filter_cons, h]
      omega
    · simp [countStarts, List.filter_cons, h]

/-- The fold invariant of the assembly machine: the projection flag equals
accumulator presence, the close counter is bounded by the growth of the
completed list, and completed plus open accumulators are bounded by the
`isStart` count. -/
theorem foldl_machine_inv (pages : List (Except String PageClassification)) :
    ∀ (cur : Option InvoiceAccumulator) (done : List InvoiceAccumulator) (b : Bool) (k : Nat),
      b = cur.isSome →
      (pages.foldl flagStep (b, k)).1 = (pages.foldl stepPage (cur, done)).1.isSome ∧
      (pages.foldl flagStep (b, k)).2 + done.length ≤
        k + (pages.foldl stepPage (cur, done)).2.length ∧
      (pages.foldl stepPage (cur, done)).2.length +
        (if (pages.foldl stepPage (cur, done)).1.isSome then 1 else 0) ≤
        done.length + (if cur.isSome then 1 else 0) + countStarts pages := by
  induction pages with
  | nil =>
    intro cur done b k hb
    simp [countStarts, hb]
  | cons r rest ih =>
    intro cur done b k hb
    have hstep := stepPage_props cur done b k r hb
    have hrec := ih (stepPage (cur, done) r).1 (stepPage (cur, done) r).2
      (flagStep (b, k) r).1 (flagStep (b, k) r).2 hstep.1
    simp only [Prod.mk.eta] at hrec
    rw [countStarts_cons]
    simp only [List.foldl_cons]
    constructor
    · exact hrec.1
    constructor
    · omega
    · omega

/-- C7: for every input sequence fed to the assembly state machine
(modelled from spec section 4.2, absent from the repository source), the
number of completed invoices is at most the number of `isStart` pages plus
one, and at least the number of `isStart` transitions that close a prior
non-empty accumulator. -/
theorem c7_machine_bounds (pages : List (Except String PageClassification)) :
    (runMachine pages).length ≤ countStarts pages + 1 ∧
    startCloses pages ≤ (runMachine pages).length := by
  have h := foldl_machine_inv pages none [] false 0 rfl
  unfold runMachine startCloses
  rcases hfin : (pages.foldl stepPage (none, [])).1 with _ | a <;>
    rw [hfin] at h <;> simp only [hfin] <;> simp at h ⊢ <;> omega

/-- The object member loop only ever returns objects. -/
theorem scanRun_members_obj (fuel : Nat) :
    ∀ (pairs : List (String × Json)) (s : List Char) (p p2 : Nat) (v : Json)
      (rest : List Char),
      scanRun fuel (.members pairs) s p = .ok (v, rest, p2) → ∃ kvs, v = Json.obj kvs := by
  induction fuel with
  | zero =>
    intro pairs s p p2 v rest h
    exact Except.noConfusion h
  | succ fuel ih =>
    intro pairs s p p2 v rest h
    simp only [scanRun] at h
    repeat' split at h
    all_goals
      first
      | exact Except.noConfusion h
      | (cases h; exact ⟨_, rfl⟩)
      | exact ih _ _ _ _ _ _ h

/-- The object body only ever returns objects. -/
theorem scanRun_object_obj (fuel : Nat) (s : List Char) (p p2 : Nat) (v : Json)
    (rest : List Char) (h : scanRun fuel .object s p = .ok (v, rest, p2)) :
    ∃ kvs, v = Json.obj kvs := by
  cases fuel with
  | zero => exact Except.noConfusion h
  | succ fuel =>
    simp only [scanRun] at h
    repeat' split at h
    all_goals
      first
      | exact Except.noConfusion h
      | (cases h; exact ⟨_, rfl⟩)
      | exact scanRun_members_obj fuel _ _ _ _ _ _ h

/-- A value scan that starts at `{` can only return an object. -/
theorem scanRun_value_brace_obj (fuel : Nat) (t : List Char) (p p2 : Nat) (v : Json)
    (rest : List Char) (h : scanRun fuel .value ('{' :: t) p = .ok (v, rest, p2)) :
    ∃ kvs, v = Json.obj kvs := by
  cases fuel with
  | zero => exact Except.noConfusion h
  | succ fuel =>
    simp only [scanRun, if_true] at h
    exact scanRun_object_obj fuel _ _ _ _ _ h

/-- A document whose first character is `{` can only parse to an object. -/
theorem jsonLoads_obj_of_head (t : List Char) (v : Json)
    (h : jsonLoads ('{' :: t) = .ok v) : ∃ kvs, v = Json.obj kvs := by
  unfold jsonLoads at h
  simp only [show skipJsonWs ('{' :: t) 0 = ('{' :: t, 0) from rfl] at h
  rcases hscan : scanValue (4 * ('{' :: t).length + 16) ('{' :: t) 0 with e | ⟨v', rest, p2⟩ <;>
    rw [hscan] at h <;> simp only [] at h
  · exact Except.noConfusion h
  · rcases hx : (skipJsonWs rest p2).1 with _ | ⟨c, r⟩ <;> rw [hx] at h <;> simp only [] at h
    · cases h
      exact scanRun_value_brace_obj _ _ _ _ _ _ hscan
    · exact Except.noConfusion h

/-- The recovery cleanup keeps a leading `{` in place. -/
theorem cleanup_cons_brace (t : List Char) : ∃ r, cleanup ('{' :: t) = '{' :: r :=
  ⟨_, rfl⟩

/-- A parse (with recovery) of a text starting at `{` can only return an
object. -/
theorem parseWithRecovery_obj (t : List Char) (v : Json)
    (h : parseWithRecovery ('{' :: t) = .ok v) : ∃ kvs, v = Json.obj kvs := by
  unfold parseWithRecovery at h
  rcases h1 : jsonLoads ('{' :: t) with e1 | v1 <;> rw [h1] at h <;> simp only [] at h
  · obtain ⟨r, hr⟩ := cleanup_cons_brace t
    rw [hr] at h
    rcases h2 : jsonLoads ('{' :: r) with e2 | v2 <;> rw [h2] at h <;> simp only [] at h
    · exact Except.noConfusion h
    · cases h
      exact jsonLoads_obj_of_head _ _ h2
  · cases h
    exact jsonLoads_obj_of_head _ _ h1

/-- What a successful `findCharAux` search says about its result. -/
theorem findCharAux_some (c : Char) :
    ∀ (l : List Char) (j i : Nat), findCharAux c l j = some i →
      j ≤ i ∧ i - j < l.length ∧ l[i - j]? = some c := by
  intro l
  induction l with
  | nil => intro j i h; exact Option.noConfusion h
  | cons a t ih =>
    intro j i h
    simp only [findCharAux] at h
    split at h
    · cases h
      rename_i ha
      exact ⟨Nat.le_refl _, by simp, by simp [ha]⟩
    · obtain ⟨h1, h2, h3⟩ := ih (j + 1) i h
      refine ⟨by omega, by simp only [List.length_cons]; omega, ?_⟩
      have hij : i - j = (i - (j + 1)) + 1 := by omega
      rw [hij]
      simpa using h3

/-- The brace-location step of `extract_data` always hands the parser a text
that starts at the located `{`, so the normaliser output is always a
(Python-dict) object. -/
theorem normalizeCore_obj (t : List Char) : ∃ kvs, normalizeCore t = Json.obj kvs := by
  simp only [normalizeCore]
  split
  case isFalse => exact ⟨_, rfl⟩
  case isTrue hcond =>
    rcases hf : findCharAux '{' t 0 with _ | i
    · simp only [pyFindChar, hf] at hcond
      simp at hcond
    · simp only [pyFindChar, hf] at hcond ⊢
      obtain ⟨-, hlt, hget⟩ := findCharAux_some '{' t 0 i hf
      simp only [Nat.sub_zero] at hlt hget
      set je := pyRFindChar t '}' + 1 with hje
      obtain ⟨hge, hgt⟩ := hcond
      have hi : sliceIdx t.length (i : Int) = i := by
        simp only [sliceIdx]
        rw [if_neg (by omega)]
        simp only [Int.toNat_ofNat]
        omega
      have hb : i < sliceIdx t.length je := by
        simp only [sliceIdx]
        rw [if_neg (by omega)]
        omega
      have hhead : (pySlice t (i : Int) je).head? = some '{' := by
        rw [pySlice, hi, List.head?_drop, List.getElem?_take_of_lt hb, hget]
      rcases hs : pySlice t (i : Int) je with _ | ⟨c, r⟩
      · rw [hs] at hhead
        exact Option.noConfusion hhead
      · rw [hs] at hhead
        have hc : c = '{' := by
          simpa using hhead
        subst hc
        rcases hp : parseWithRecovery ('{' :: r) with m | v
        · exact ⟨_, rfl⟩
        · exact parseWithRecovery_obj _ _ hp

/-- Every record `extract_data` returns is a JSON object (a Python dict):
either the error record built on an exception or parse failure, or the
parsed object itself. -/
theorem extract_data_obj (oracle : Except String (List Char)) :
    ∃ kvs, extract_data oracle = Json.obj kvs := by
  cases oracle with
  | error e => exact ⟨_, rfl⟩
  | ok raw =>
    simp only [extract_data, normalize]
    exact normalizeCore_obj _

/-- A non-empty list has a last element. -/
theorem getLast?_cons_isSome {α : Type} (a : α) :
    ∀ (l : List α), ∃ b, (a :: l).getLast? = some b := by
  intro l
  induction l generalizing a with
  | nil => exact ⟨a, rfl⟩
  | cons y u ih =>
    obtain ⟨b, hb⟩ := ih y
    exact ⟨b, by rw [List.getLast?_cons_cons]; exact hb⟩

/-- The last element of a list is one of its members. -/
theorem mem_of_getLast?_eq_some {α : Type} :
    ∀ (l : List α) (a : α), l.getLast? = some a → a ∈ l := by
  intro l
  induction l with
  | nil => intro a h; exact Option.noConfusion h
  | cons x t ih =>
    intro a h
    cases t with
    | nil =>
      simp only [List.getLast?_singleton] at h
      cases h
      exact List.mem_cons_self x []
    | cons y u =>
      rw [List.getLast?_cons_cons] at h
      exact List.mem_cons_of_mem x (ih a h)

/-- A present key has a value: `d[k]` succeeds when `k in d`. -/
theorem dictGet_some_of_hasKey (kvs : List (String × Json)) (k : String)
    (h : hasKey (Json.obj kvs) k = true) : ∃ v, dictGet (Json.obj kvs) k = some v := by
  simp only [hasKey] at h
  rw [List.any_eq_true] at h
  obtain ⟨x, hx, hxk⟩ := h
  have hmem : x ∈ kvs.filter (fun kv => kv.1 = k) := List.mem_filter.mpr ⟨hx, hxk⟩
  simp only [dictGet]
  rcases hfil : kvs.filter (fun kv => kv.1 = k) with _ | ⟨q, qs⟩
  · rw [hfil] at hmem
    exact absurd hmem (List.not_mem_nil x)
  · obtain ⟨b, hb⟩ := getLast?_cons_isSome q qs
    rw [hfil, hb]
    exact ⟨b.2, rfl⟩

/-- A retrievable value means the key is present. -/
theorem hasKey_of_dictGet_some (j : Json) (k : String) (v : Json)
    (h : dictGet j k = some v) : hasKey j k = true := by
  cases j with
  | obj kvs =>
    simp only [dictGet] at h
    rcases hlast : (kvs.filter (fun kv => kv.1 = k)).getLast? with _ | p
    · rw [hlast] at h
      exact Option.noConfusion h
    · have hp : p ∈ kvs.filter (fun kv => kv.1 = k) := mem_of_getLast?_eq_some _ _ hlast
      have hp2 := List.mem_filter.mp hp
      simp only [hasKey]
      rw [List.any_eq_true]
      exact ⟨p, hp2.1, hp2.2⟩
  | null => exact Option.noConfusion h
  | bool b => exact Option.noConfusion h
  | num s => exact Option.noConfusion h
  | str s => exact Option.noConfusion h
  | arr xs => exact Option.noConfusion h

/-- A record whose `error` value is sliceable is recorded as a failed
document, the value passed through and the data dropped. -/
theorem processResult_sliceable (name : String) (oracle : Except String (List Char))
    (v : Json) (hv : dictGet (extract_data oracle) "error" = some v)
    (hs : sliceable v = true) :
    processResult name oracle = .ok ⟨name, "error", none, some v⟩ := by
  have hkey : hasKey (extract_data oracle) "error" = true :=
    hasKey_of_dictGet_some _ _ _ hv
  simp [processResult, hkey, hv, hs]

/-- A record whose `error` value is not sliceable makes line 228 raise. -/
theorem processResult_typeError (name : String) (oracle : Except String (List Char))
    (v : Json) (hv : dictGet (extract_data oracle) "error" = some v)
    (hs : sliceable v = false) :
    processResult name oracle = .error "TypeError" := by
  have hkey : hasKey (extract_data oracle) "error" = true :=
    hasKey_of_dictGet_some _ _ _ hv
  simp [processResult, hkey, hv, hs]

/-- Processing one document succeeds whenever its `error` value (if any)
is sliceable. -/
theorem processResult_ok_of_errorValueOk (name : String)
    (oracle : Except String (List Char)) (h : errorValueOk oracle = true) :
    ∃ r, processResult name oracle = .ok r ∧
      (r.status = "success" ∨ r.status = "error") := by
  by_cases hkey : hasKey (extract_data oracle) "error" = true
  · obtain ⟨kvs, hkvs⟩ := extract_data_obj oracle
    obtain ⟨v, hv⟩ := dictGet_some_of_hasKey kvs "error" (by rw [← hkvs]; exact hkey)
    rw [← hkvs] at hv
    rw [errorValueOk, hv] at h
    exact ⟨_, processResult_sliceable name oracle v hv h, Or.inr rfl⟩
  · exact ⟨⟨name, "success", some (extract_data oracle), none⟩,
      by simp [processResult, hkey], Or.inl rfl⟩

/-- C6 counterexample: an oracle reply that parses to an object carrying a
non-sliceable `error` value; extraction itself succeeds, yet the status
print of line 228 raises `TypeError` and the batch aborts instead of
completing with one record per file. -/
theorem c6_counterexample :
    extract_data (.ok "\x7b\"error\": 5\x7d".data) = Json.obj [("error", Json.num "5")] ∧
    process_folder [("doc.pdf", .ok "\x7b\"error\": 5\x7d".data)] = .error "TypeError" :=
  ⟨rfl, rfl⟩

/-- C6: amended — every failure during extraction (rasterisation, oracle
call, parsing) is caught and recorded as that document's error record with
a string message, and `extract_data` always returns a record; the only
escape past the document boundary is the status print of line 228, which
raises `TypeError` exactly when a successfully parsed record carries a
non-sliceable `error` value; on batches free of that corner — including
every batch whose error records come from `extract_data` itself — the run
completes with one success/error record per file. -/
theorem c6_failures_contained_amended :
    (∀ name e, processResult name (.error e) =
      .ok ⟨name, "error", none, some (Json.str ("Extraction error: " ++ e))⟩) ∧
    (∀ oracle, ∃ kvs, extract_data oracle = Json.obj kvs) ∧
    (∀ name oracle e, processResult name oracle = .error e →
      ∃ v, dictGet (extract_data oracle) "error" = some v ∧ sliceable v = false ∧
        e = "TypeError") ∧
    (∀ files, files.all (fun f => errorValueOk f.2) = true →
      ∃ rs, process_folder files = .ok rs ∧ rs.length = files.length ∧
        rs.all (fun r => r.status = "success" || r.status = "error") = true) := by
  refine ⟨?_, extract_data_obj, ?_, ?_⟩
  · intro name e
    rfl
  · intro name oracle e h
    obtain ⟨kvs, hkvs⟩ := extract_data_obj oracle
    simp only [processResult] at h
    by_cases hkey : hasKey (extract_data oracle) "error" = true
    · rw [if_pos hkey] at h
      obtain ⟨v, hv⟩ := dictGet_some_of_hasKey kvs "error" (by rw [← hkvs]; exact hkey)
      rw [← hkvs] at hv
      rw [hv] at h
      simp only [] at h
      by_cases hs : sliceable v = true
      · rw [if_pos hs] at h
        exact Except.noConfusion h
      · rw [if_neg hs] at h
        cases h
        exact ⟨v, hv, by simpa using hs, rfl⟩
    · rw [if_neg hkey] at h
      exact Except.noConfusion h
  · intro files
    induction files with
    | nil => exact fun _ => ⟨[], rfl, rfl, rfl⟩
    | cons f rest ih =>
      intro hall
      rw [List.all_cons, Bool.and_eq_true] at hall
      obtain ⟨r, hr, hst⟩ := processResult_ok_of_errorValueOk f.1 f.2 hall.1
      obtain ⟨rs, h1, h2, h3⟩ := ih hall.2
      refine ⟨r :: rs, ?_, by simp [h2], ?_⟩
      · simp only [process_folder, hr, h1]
      · rw [List.all_cons, Bool.and_eq_true]
        refine ⟨?_, h3⟩
        rcases hst with h' | h' <;> simp [h']

/-- C6 witness: the raise characterisation applied at a concrete raising
input, and a concrete two-file batch (one oracle failure, one success)
that completes with one record per file. -/
theorem c6_witness :
    (∃ v, dictGet (extract_data (.ok "\x7b\"error\": true\x7d".data)) "error" = some v ∧
      sliceable v = false ∧ "TypeError" = "TypeError") ∧
    (∃ rs, process_folder
        [("a.pdf", .error "corrupt PDF"),
         ("b.pdf", .ok "\x7b\"totalAmount\": 1\x7d".data)] = .ok rs ∧
      rs.length = 2 ∧
      rs.all (fun r => r.status = "success" || r.status = "error") = true) := by
  constructor
  · exact c6_failures_contained_amended.2.2.1 "x.pdf"
      (.ok "\x7b\"error\": true\x7d".data) "TypeError" (by rfl)
  · exact c6_failures_contained_amended.2.2.2
      [("a.pdf", .error "corrupt PDF"),
       ("b.pdf", .ok "\x7b\"totalAmount\": 1\x7d".data)] (by rfl)

/-- C9 counterexample: `{"error": null, "totalAmount": 5}` parses and its
record has an `error` key, yet the document is not recorded with status
`error` — processing it raises `TypeError` and produces no record. -/
theorem c9_counterexample :
    hasKey (extract_data (.ok "\x7b\"error\": null, \"totalAmount\": 5\x7d".data))
      "error" = true ∧
    processResult "doc.pdf" (.ok "\x7b\"error\": null, \"totalAmount\": 5\x7d".data) =
      .error "TypeError" :=
  ⟨rfl, rfl⟩

/-- C9: amended — among documents that are recorded at all, status `error`
holds exactly when the extracted record has an `error` key, and the
extracted data is then dropped from the success path; a record whose
`error` value is sliceable (a string or list) is recorded that way with
the value passed through, while a non-sliceable `error` value (null, a
number, a boolean, a nested object) yields no record at all — the status
print of line 228 raises `TypeError`. -/
theorem c9_error_key_classification_amended :
    (∀ name oracle r, processResult name oracle = .ok r →
      ((r.status = "error" ↔ hasKey (extract_data oracle) "error" = true) ∧
        (r.status = "error" → r.data = none))) ∧
    (∀ name oracle v, dictGet (extract_data oracle) "error" = some v →
      sliceable v = true →
      processResult name oracle = .ok ⟨name, "error", none, some v⟩) ∧
    (∀ name oracle v, dictGet (extract_data oracle) "error" = some v →
      sliceable v = false →
      processResult name oracle = .error "TypeError") := by
  refine ⟨?_, processResult_sliceable, processResult_typeError⟩
  intro name oracle r h
  simp only [processResult] at h
  by_cases hkey : hasKey (extract_data oracle) "error" = true
  · rw [if_pos hkey] at h
    obtain ⟨kvs, hkvs⟩ := extract_data_obj oracle
    obtain ⟨v, hv⟩ := dictGet_some_of_hasKey kvs "error" (by rw [← hkvs]; exact hkey)
    rw [← hkvs] at hv
    rw [hv] at h
    simp only [] at h
    by_cases hs : sliceable v = true
    · rw [if_pos hs] at h
      cases h
      exact ⟨⟨fun _ => hkey, fun _ => rfl⟩, fun _ => rfl⟩
    · rw [if_neg hs] at h
      exact Except.noConfusion h
  · rw [if_neg hkey] at h
    cases h
    refine ⟨⟨?_, ?_⟩, ?_⟩
    · intro hst
      exact ((by decide : ¬("success" : String) = "error") hst).elim
    · intro hk
      exact absurd hk hkey
    · intro hst
      exact ((by decide : ¬("success" : String) = "error") hst).elim

/-- C9 witness: a parsed object with a string `error` value is recorded as
a failed document with its data dropped; a successful document's recorded
status is not `error`; a parsed object with a boolean `error` value is
never recorded. -/
theorem c9_witness :
    (processResult "doc.pdf"
      (.ok "\x7b\"error\": \"bad scan\", \"totalAmount\": 5\x7d".data) =
      .ok ⟨"doc.pdf", "error", none, some (Json.str "bad scan")⟩) ∧
    ((PyDictResult.status ⟨"ok.pdf", "success",
        some (Json.obj [("totalAmount", Json.num "7")]), none⟩ = "error" ↔
      hasKey (extract_data (.ok "\x7b\"totalAmount\": 7\x7d".data)) "error" = true)) ∧
    (processResult "p.pdf" (.ok "\x7b\"error\": false\x7d".data) = .error "TypeError") := by
  refine ⟨?_, ?_, ?_⟩
  · exact c9_error_key_classification_amended.2.1 "doc.pdf"
      (.ok "\x7b\"error\": \"bad scan\", \"totalAmount\": 5\x7d".data)
      (Json.str "bad scan") (by rfl) (by rfl)
  · exact (c9_error_key_classification_amended.1 "ok.pdf"
      (.ok "\x7b\"totalAmount\": 7\x7d".data)
      ⟨"ok.pdf", "success", some (Json.obj [("totalAmount", Json.num "7")]), none⟩
      (by rfl)).1
  · exact c9_error_key_classification_amended.2.2 "p.pdf"
      (.ok "\x7b\"error\": false\x7d".data) (Json.bool false) (by rfl) (by rfl)

/-- C10: the CSV row written for an error-status result keeps every field
other than `filename`, `status` and `error` at `None` (the row is built
from an all-`None` template), and the error cell is the error string
truncated to at most 200 characters. -/
theorem c10_error_row_frame (r : PyDictResult) (e : String)
    (hstat : r.status = "error") (herr : r.error = some (Json.str e)) :
    rowFor r = .ok ⟨some (Json.str r.filename), none, none, none, none, none, none,
      none, none, none, none, some (Json.str "error"), some (Json.str (takeStr 200 e))⟩ ∧
    (takeStr 200 e).length ≤ 200 := by
  constructor
  · simp [rowFor, hstat, herr]
  · show (takeStr 200 e).data.length ≤ 200
    simp only [takeStr]
    simp [List.length_take]

/-- C10 witness: the error row built for a concrete failed document. -/
theorem c10_witness :
    rowFor ⟨"f.pdf", "error", none, some (Json.str "boom")⟩ =
      .ok ⟨some (Json.str "f.pdf"), none, none, none, none, none, none, none, none,
        none, none, some (Json.str "error"), some (Json.str (takeStr 200 "boom"))⟩ ∧
    (takeStr 200 "boom").length ≤ 200 :=
  c10_error_row_frame ⟨"f.pdf", "error", none, some (Json.str "boom")⟩ "boom" rfl rfl

/-- C4: amended — the recovery pass replaces every single-quote character
(including apostrophes inside double-quoted strings) with a double quote and
every newline with a space, strips trailing commas, and retries the parse
exactly once: a success comes from the strict parse or from that single
retry, and when both fail the reported error wraps the retry's message. -/
theorem c4_recovery_amended :
    (∀ t v, parseWithRecovery t = .ok v →
      jsonLoads t = .ok v ∨ jsonLoads (cleanup t) = .ok v) ∧
    (∀ t e₁ e₂, jsonLoads t = .error e₁ → jsonLoads (cleanup t) = .error e₂ →
      parseWithRecovery t = .error ("JSON parsing failed: " ++ e₂)) ∧
    (∀ t, squote ∉ replaceChar t squote '"' ∧
      '\n' ∉ replaceChar (replaceChar t squote '"') '\n' ' ') := by
  refine ⟨?_, ?_, ?_⟩
  · intro t v h
    unfold parseWithRecovery at h
    rcases h1 : jsonLoads t with e | v1 <;> rw [h1] at h <;> simp only [] at h
    · rcases h2 : jsonLoads (cleanup t) with e2 | v2 <;> rw [h2] at h <;> simp only [] at h
      · exact Except.noConfusion h
      · cases h
        exact Or.inr rfl
    · cases h
      exact Or.inl rfl
  · intro t e₁ e₂ h1 h2
    simp [parseWithRecovery, h1, h2]
  · intro t
    constructor
    · simp only [replaceChar, List.mem_map, not_exists, not_and]
      intro x _
      by_cases hx : x = squote
      · rw [if_pos hx]
        decide
      · rw [if_neg hx]
        exact hx
    · simp only [replaceChar, List.mem_map, not_exists, not_and]
      intro x _
      by_cases hx : x = '\n'
      · rw [if_pos hx]
        decide
      · rw [if_neg hx]
        exact hx

/-- C4 witness: on `{zz}` both the strict parse and the single retry fail and
the wrapped retry message is reported. -/
theorem c4_witness :
    parseWithRecovery "\x7bzz\x7d".data =
      .error ("JSON parsing failed: " ++ msgExpPropName ++ ": line 1 column 2 (char 1)") :=
  c4_recovery_amended.2.1 "\x7bzz\x7d".data
    (msgExpPropName ++ ": line 1 column 2 (char 1)")
    (msgExpPropName ++ ": line 1 column 2 (char 1)") (by rfl) (by rfl)

/-- A needle longer than the haystack never occurs in it. -/
theorem containsSub_too_long (hay needle : List Char) (h : hay.length < needle.length) :
    containsSub hay needle = false := by
  have haux : ∀ (l : List Char) (j : Nat), l.length < needle.length →
      findSubAux needle l j = none := by
    intro l
    induction l with
    | nil =>
      intro j hl
      simp only [findSubAux]
      rw [if_neg]
      intro hne
      rw [hne] at hl
      simp at hl
    | cons a t ih =>
      intro j hl
      simp only [findSubAux]
      rw [if_neg, ih (j + 1) (by simp at hl ⊢; omega)]
      intro hpre
      have := (List.isPrefixOf_iff_prefix.mp hpre).length_le
      omega
  simp only [containsSub, pyFindSubFrom, List.drop_zero, haux hay 0 h]
  rfl

/-- C3: amended — when both parses fail the normaliser's error value is the
decoder message wrapped as `JSON parsing failed: ...`; that message carries
position information but no snippet of the offending substring (whenever
the substring is longer than the message, the message cannot contain it),
and the 200-character truncation is applied by `create_csv` when the error
string is written to the row, bounding the stored error cell. -/
theorem c3_error_reporting_amended :
    (∀ t e₁ e₂, jsonLoads t = .error e₁ → jsonLoads (cleanup t) = .error e₂ →
      parseWithRecovery t = .error ("JSON parsing failed: " ++ e₂) ∧
      (("JSON parsing failed: " ++ e₂).data.length < t.length →
        containsSub ("JSON parsing failed: " ++ e₂).data t = false)) ∧
    (∀ fn e, (rowFor ⟨fn, "error", none, some (Json.str e)⟩).map (fun row => row.error) =
      .ok (some (Json.str (takeStr 200 e))) ∧ (takeStr 200 e).length ≤ 200) := by
  constructor
  · intro t e₁ e₂ h1 h2
    constructor
    · simp [parseWithRecovery, h1, h2]
    · intro hlen
      exact containsSub_too_long _ _ hlen
  · intro fn e
    constructor
    · rfl
    · show (takeStr 200 e).data.length ≤ 200
      simp only [takeStr]
      simp [List.length_take]

/-- C3 witness: a 251-character offending text whose parse failures produce a
short positional message that does not contain the text. -/
theorem c3_witness :
    parseWithRecovery ('{' :: List.replicate 250 'z') =
      .error ("JSON parsing failed: " ++ msgExpPropName ++ ": line 1 column 2 (char 1)") ∧
    containsSub ("JSON parsing failed: " ++ msgExpPropName ++ ": line 1 column 2 (char 1)").data
      ('{' :: List.replicate 250 'z') = false := by
  have h := c3_error_reporting_amended.1 ('{' :: List.replicate 250 'z')
    (msgExpPropName ++ ": line 1 column 2 (char 1)")
    (msgExpPropName ++ ": line 1 column 2 (char 1)") (by rfl) (by rfl)
  exact ⟨h.1, h.2 (by decide)⟩

/-- `findCharAux` returns `none` exactly when the character is absent. -/
theorem findCharAux_none (c : Char) :
    ∀ (l : List Char) (j : Nat), findCharAux c l j = none ↔ c ∉ l := by
  intro l
  induction l with
  | nil => intro j; simp [findCharAux]
  | cons a t ih =>
    intro j
    by_cases h : a = c
    · simp [findCharAux, h]
    · simp only [findCharAux, if_neg h, ih (j + 1), List.mem_cons]
      constructor
      · intro hnt hor
        rcases hor with hca | hct
        · exact h hca.symm
        · exact hnt hct
      · intro hn hct
        exact hn (Or.inr hct)

/-- C5: amended — with no `{` in the (fence-handled) text, or with a `{`
whose last `}` does not lie beyond it, the normaliser returns the no-JSON
error; only when the last `}` lies beyond the first `{` does it parse the
slice between those bounds (with the recovery retry of C4). -/
theorem c5_bounds_amended :
    (∀ t, '{' ∉ t → normalizeCore t = errObj "No valid JSON found in response") ∧
    (∀ t i, findCharAux '{' t 0 = some i →
      pyRFindChar t '}' + 1 ≤ (i : Int) →
      normalizeCore t = errObj "No valid JSON found in response") ∧
    (∀ t i, findCharAux '{' t 0 = some i →
      (i : Int) < pyRFindChar t '}' + 1 →
      normalizeCore t =
        (match parseWithRecovery (pySlice t (i : Int) (pyRFindChar t '}' + 1)) with
         | .ok v => v
         | .error m => errObj m)) := by
  refine ⟨?_, ?_, ?_⟩
  · intro t hmem
    have hf : findCharAux '{' t 0 = none := (findCharAux_none '{' t 0).mpr hmem
    simp only [normalizeCore, pyFindChar, hf]
    rw [if_neg]
    intro hcond
    have := hcond.1
    omega
  · intro t i hf hle
    simp only [normalizeCore, pyFindChar, hf]
    rw [if_neg]
    intro hcond
    have := hcond.2
    omega
  · intro t i hf hlt
    simp only [normalizeCore, pyFindChar, hf]
    rw [if_pos ⟨by omega, by omega⟩]

/-- C5 witness: the three behaviours at concrete inputs — no brace, a brace
with no closing brace beyond it, and a well-bounded object. -/
theorem c5_witness :
    normalizeCore "abc".data = errObj "No valid JSON found in response" ∧
    normalizeCore "\x7bq".data = errObj "No valid JSON found in response" ∧
    normalizeCore "x\x7b\"a\":1\x7d".data = Json.obj [("a", Json.num "1")] := by
  refine ⟨c5_bounds_amended.1 "abc".data (by decide),
    c5_bounds_amended.2.1 "\x7bq".data 0 (by rfl) (by decide), ?_⟩
  have h := c5_bounds_amended.2.2 "x\x7b\"a\":1\x7d".data 1 (by rfl) (by decide)
  rw [h]
  rfl

/-- The data-row loop of `create_csv` writes one 13-cell row per result. -/
theorem dataRows_ok (results : List PyDictResult) :
    ∀ rs, dataRows results = .ok rs →
      rs.length = results.length ∧ rs.all (fun row => row.length = 13) = true := by
  induction results with
  | nil =>
    intro rs h
    cases h
    simp
  | cons r rest ih =>
    intro rs h
    simp only [dataRows] at h
    split at h
    · exact Except.noConfusion h
    · split at h
      · exact Except.noConfusion h
      · cases h
        rename_i row hrow rs' hrs'
        obtain ⟨h1, h2⟩ := ih rs' hrs'
        refine ⟨by simp [h1], ?_⟩
        simp only [List.all_cons, h2, Bool.and_true]
        simp [rowCells]

/-- C8: amended — the CSV has exactly the thirteen fixed columns, in the
source's order (`status` twelfth, not second), and consists of the header
row plus exactly one data row per document result. -/
theorem c8_csv_shape_amended :
    (∀ results rows, create_csv results = .ok rows →
      rows.length = results.length + 1 ∧ rows.head? = some headerCells ∧
      rows.all (fun row => row.length = 13) = true) ∧
    fieldnames = ["filename", "invoiceNumber", "invoiceDate", "vendorName",
      "customerName", "totalAmount", "subtotal", "tax", "dueDate",
      "lineItemsCount", "lineItemsSummary", "status", "error"] := by
  constructor
  · intro results rows h
    unfold create_csv at h
    split at h
    · exact Except.noConfusion h
    · cases h
      rename_i rs hrs
      obtain ⟨h1, h2⟩ := dataRows_ok results rs hrs
      refine ⟨by simp [h1], rfl, ?_⟩
      simp only [List.all_cons, h2, Bool.and_true]
      rfl
  · rfl

/-- C8 witness: a two-document batch (one error, one success) produces a
header row and two 13-cell data rows. -/
theorem c8_witness :
    create_csv [⟨"a.pdf", "error", none, some (Json.str "x")⟩,
        ⟨"b.pdf", "success", some (Json.obj []), none⟩] =
      .ok [headerCells,
        [some (Json.str "a.pdf"), none, none, none, none, none, none, none, none,
          none, none, some (Json.str "error"), some (Json.str "x")],
        [some (Json.str "b.pdf"), none, none, none, none, none, none, none, none,
          none, none, some (Json.str "success"), none]] ∧
    ([headerCells,
        [some (Json.str "a.pdf"), none, none, none, none, none, none, none, none,
          none, none, some (Json.str "error"), some (Json.str "x")],
        [some (Json.str "b.pdf"), none, none, none, none, none, none, none, none,
          none, none, some (Json.str "success"), none]] :
      List (List (Option Json))).length = 2 + 1 := by
  have h := c8_csv_shape_amended.1
    [⟨"a.pdf", "error", none, some (Json.str "x")⟩,
     ⟨"b.pdf", "success", some (Json.obj []), none⟩]
    [headerCells,
      [some (Json.str "a.pdf"), none, none, none, none, none, none, none, none,
        none, none, some (Json.str "error"), some (Json.str "x")],
      [some (Json.str "b.pdf"), none, none, none, none, none, none, none, none,
        none, none, some (Json.str "success"), none]] (by rfl)
  exact ⟨by rfl, h.1⟩

/-- A list ending in `a` splits off that last element. -/
theorem getLast?_decomp {α : Type} :
    ∀ (l : List α) (a : α), l.getLast? = some a → ∃ l0, l = l0 ++ [a] := by
  intro l
  induction l with
  | nil => intro a h; exact Option.noConfusion h
  | cons x t ih =>
    intro a h
    cases t with
    | nil =>
      refine ⟨[], ?_⟩
      simp only [List.getLast?_singleton] at h
      cases h
      rfl
    | cons y u =>
      rw [List.getLast?_cons_cons] at h
      obtain ⟨l0, hl0⟩ := ih a h
      exact ⟨x :: l0, by rw [List.cons_append, ← hl0]⟩

/-- `dropWhile` stops no later than the first element failing the predicate. -/
theorem dropWhile_append_of_not (f : Char → Bool) (l₁ : List Char) (a : Char)
    (l₂ : List Char) (ha : f a = false) :
    (l₁ ++ a :: l₂).dropWhile f = l₁.dropWhile f ++ a :: l₂ := by
  induction l₁ with
  | nil => simp [List.dropWhile_cons, ha]
  | cons c t ih =>
    by_cases h : f c = true <;> simp [List.dropWhile_cons, h, ih]

/-- Stripping an embedding only strips within the surrounding text, because
the embedded object's first and last characters are braces, not whitespace. -/
theorem pyStrip_embed (p s J J0 J1 : List Char) (hJ1 : J = '{' :: J1)
    (hJ0 : J = J0 ++ ['}']) :
    pyStrip (p ++ J ++ s) = lstripPy p ++ J ++ rstripPy s := by
  have hl : lstripPy (p ++ J ++ s) = lstripPy p ++ J ++ s := by
    rw [List.append_assoc, hJ1, lstripPy, lstripPy,
      show ('{' :: J1) ++ s = '{' :: (J1 ++ s) from rfl,
      dropWhile_append_of_not isStripWs p '{' (J1 ++ s) (by decide)]
    simp [List.append_assoc]
  rw [pyStrip, hl, rstripPy]
  rw [show lstripPy p ++ J ++ s = lstripPy p ++ (J0 ++ ['}']) ++ s from by rw [← hJ0]]
  rw [show lstripPy p ++ (J0 ++ ['}']) ++ s = (lstripPy p ++ J0) ++ '}' :: s from by
    simp [List.append_assoc]]
  rw [List.reverse_append, List.reverse_cons, List.append_assoc,
    List.singleton_append,
    dropWhile_append_of_not isStripWs s.reverse '}' (lstripPy p ++ J0).reverse (by decide)]
  rw [List.reverse_append, List.reverse_cons, List.reverse_reverse]
  rw [hJ0]
  simp [rstripPy, List.append_assoc]

/-- A needle starting with an absent character never occurs. -/
theorem findSubAux_none_of_head_not_mem (c : Char) (n : List Char) :
    ∀ (l : List Char) (j : Nat), c ∉ l → findSubAux (c :: n) l j = none := by
  intro l
  induction l with
  | nil => intro j _; simp [findSubAux]
  | cons a t ih =>
    intro j hmem
    simp only [findSubAux]
    rw [if_neg, ih (j + 1) (fun h => hmem (List.mem_cons_of_mem a h))]
    intro hpre
    obtain ⟨u, hu⟩ := List.isPrefixOf_iff_prefix.mp hpre
    rw [List.cons_append] at hu
    have hc : c = a := by
      injection hu
    exact hmem (hc ▸ List.mem_cons_self a t)

/-- Without any backtick in the text, the fence handling is the identity. -/
theorem stripFence_no_ticks (txt : List Char) (h : btick ∉ txt) :
    stripFence txt = txt := by
  have h1 : findSubAux fenceJson txt 0 = none :=
    findSubAux_none_of_head_not_mem btick [btick, btick, 'j', 's', 'o', 'n'] txt 0 h
  have h2 : findSubAux fence3 txt 0 = none :=
    findSubAux_none_of_head_not_mem btick [btick, btick] txt 0 h
  simp only [stripFence]
  rw [h1, h2]

/-- Membership in the left strip implies membership in the original. -/
theorem mem_lstripPy (c : Char) (l : List Char) (h : c ∈ lstripPy l) : c ∈ l :=
  (List.dropWhile_sublist isStripWs).mem h

/-- Membership in the right strip implies membership in the original. -/
theorem mem_rstripPy (c : Char) (l : List Char) (h : c ∈ rstripPy l) : c ∈ l := by
  rw [rstripPy, List.mem_reverse] at h
  exact List.mem_reverse.mp ((List.dropWhile_sublist isStripWs).mem h)

/-- Searching across a prefix free of the sought character. -/
theorem findCharAux_append (c : Char) :
    ∀ (l₁ l₂ : List Char) (j : Nat), c ∉ l₁ →
      findCharAux c (l₁ ++ l₂) j = findCharAux c l₂ (j + l₁.length) := by
  intro l₁
  induction l₁ with
  | nil => intro l₂ j _; simp
  | cons a t ih =>
    intro l₂ j hmem
    rw [show (a :: t) ++ l₂ = a :: (t ++ l₂) from rfl]
    simp only [findCharAux]
    rw [if_neg (fun h => hmem (by rw [← h]; exact List.mem_cons_self a t)),
      ih l₂ (j + 1) (fun h => hmem (List.mem_cons_of_mem a h))]
    congr 1
    simp only [List.length_cons]
    omega

/-- C1: amended — the round-trip holds for embeddings the pipeline can
see through: if neither the object text nor the surrounding text contains
a backtick (so no fence handling fires), the prefix contains no `{`, the
suffix contains no `}`, and the embedded text starts with `{`, ends with
`}` and parses strictly, then normalisation recovers exactly the parsed
object.  The spec's markdown-fenced scenario also normalises to its
object. -/
theorem c1_roundtrip_amended :
    (∀ (p J s : List Char) (v : Json),
      btick ∉ p → btick ∉ J → btick ∉ s →
      '{' ∉ p → '}' ∉ s →
      J.head? = some '{' → J.getLast? = some '}' →
      jsonLoads J = .ok v →
      normalize (p ++ J ++ s) = v) ∧
    normalize "Here is the result:\n```json\n\x7b\"a\":1\x7d\n```\nThanks!".data =
      Json.obj [("a", Json.num "1")] := by
  constructor
  · intro p J s v hbp hbJ hbs hpb hsb hhead hlast hparse
    obtain ⟨J1, hJ1⟩ : ∃ J1, J = '{' :: J1 := by
      cases J with
      | nil => exact Option.noConfusion hhead
      | cons c t =>
        refine ⟨t, ?_⟩
        simp only [List.head?_cons, Option.some.injEq] at hhead
        rw [hhead]
    obtain ⟨J0, hJ0⟩ := getLast?_decomp J '}' hlast
    unfold normalize
    rw [pyStrip_embed p s J J0 J1 hJ1 hJ0]
    set lp := lstripPy p with hlp
    set rs := rstripPy s with hrs
    have hbtxt : btick ∉ lp ++ J ++ rs := by
      intro h
      rcases List.mem_append.mp h with h' | h'
      · rcases List.mem_append.mp h' with h'' | h''
        · exact hbp (mem_lstripPy _ _ h'')
        · exact hbJ h''
      · exact hbs (mem_rstripPy _ _ h')
    rw [stripFence_no_ticks _ hbtxt]
    have hpblp : '{' ∉ lp := fun h => hpb (mem_lstripPy _ _ h)
    have hsbrs : '}' ∉ rs := fun h => hsb (mem_rstripPy _ _ h)
    have hfind : findCharAux '{' (lp ++ J ++ rs) 0 = some lp.length := by
      rw [List.append_assoc, findCharAux_append '{' lp (J ++ rs) 0 hpblp, hJ1]
      rw [show ('{' :: J1) ++ rs = '{' :: (J1 ++ rs) from rfl]
      simp [findCharAux]
    have hrfind : findCharAux '}' (lp ++ J ++ rs).reverse 0 = some rs.length := by
      rw [show lp ++ J ++ rs = (lp ++ J0) ++ '}' :: rs from by
        rw [hJ0]; simp [List.append_assoc]]
      rw [List.reverse_append, List.reverse_cons, List.append_assoc,
        List.singleton_append,
        findCharAux_append '}' rs.reverse ('}' :: (lp ++ J0).reverse) 0
          (fun h => hsbrs (List.mem_reverse.mp h))]
      simp [findCharAux]
    have hJlen : J.length = J0.length + 1 := by
      rw [hJ0]; simp
    have hlen : (lp ++ J ++ rs).length = lp.length + J.length + rs.length := by
      simp
      omega
    simp only [normalizeCore, pyFindChar, hfind, pyRFindChar, hrfind]
    rw [if_pos ⟨by omega, by rw [hlen, hJlen]; omega⟩]
    have ha : sliceIdx (lp ++ J ++ rs).length ((lp.length : Nat) : Int) = lp.length := by
      simp only [sliceIdx]
      rw [if_neg (by omega)]
      simp only [Int.toNat_ofNat]
      rw [hlen]
      omega
    have hb : sliceIdx (lp ++ J ++ rs).length
        ((((lp ++ J ++ rs).length - 1 - rs.length : Nat) : Int) + 1) =
        lp.length + J.length := by
      simp only [sliceIdx]
      rw [if_neg (by omega)]
      rw [hlen, hJlen]
      omega
    have hslice : pySlice (lp ++ J ++ rs) ((lp.length : Nat) : Int)
        ((((lp ++ J ++ rs).length - 1 - rs.length : Nat) : Int) + 1) = J := by
      rw [pySlice, ha, hb,
        show lp.length + J.length = (lp ++ J).length from (List.length_append lp J).symm,
        List.take_left, List.drop_left]
    rw [hslice]
    have hpr : parseWithRecovery J = .ok v := by
      simp [parseWithRecovery, hparse]
    rw [hpr]
  · rfl

/-- C1 witness: a concrete benign embedding recovered exactly. -/
theorem c1_witness :
    normalize ("x ".data ++ "\x7b\"a\":1\x7d".data ++ " done.".data) =
      Json.obj [("a", Json.num "1")] :=
  c1_roundtrip_amended.1 "x ".data "\x7b\"a\":1\x7d".data " done.".data
    (Json.obj [("a", Json.num "1")])
    (by decide) (by decide) (by decide) (by decide) (by decide)
    (by rfl) (by rfl) (by rfl)

end InvoiceExtractor
